/-
  Verification of the Voordeelgordijnen workflow-admin sync/search core.

  Shallow embedding of:
    * `app/n8n.server.js`        — n8n API client, `extractFromExecutionData`
    * `app/n8n-sync.server.js`   — execution sync engine (`syncExecutions`,
                                   `incrementalSync`, `upsertBatch`)
    * `app/softr.server.js`      — Softr client (`syncSoftrData`,
                                   `resolveFieldValue`, `searchSoftrRecords`)
    * `app/routes/app.execution-detail.jsx` — node-timeline loader

  JavaScript values that the code inspects structurally are modelled with the
  inductive `JsVal`; JS property access `o[k]` returns `undefined` when the key
  is absent, which `jsGet` mirrors by defaulting to `.vundefined`.  Timestamps are
  epoch milliseconds, modelled as `Nat`.
-/
import Mathlib

namespace WorkflowAdmin
/-- A JavaScript value, as far as the code under verification inspects it:
`undefined`, `null`, booleans, numbers, strings, plain objects (ordered
key/value lists, mirroring JS object key order) and arrays. -/
inductive JsVal where
  | vundefined : JsVal
  | vnull : JsVal
  | vbool (b : Bool) : JsVal
  | vnum (n : Int) : JsVal
  | vstr (s : String) : JsVal
  | vobj (fields : List (String × JsVal)) : JsVal
  | varr (elems : List JsVal) : JsVal

/-- An object body: the ordered field list of a JS object. -/
abbrev JsObj := List (String × JsVal)

/-- JS property read on an object body: `o[k]`, `undefined` when absent. -/
def jsGet (o : JsObj) (k : String) : JsVal := (o.lookup k).getD .vundefined

/-- JS truthiness (`Boolean(v)`).  `NaN` does not arise for the inspected
values, so numbers are falsy exactly at `0`. -/
def truthy : JsVal → Bool
  | .vundefined => false
  | .vnull => false
  | .vbool b => b
  | .vnum n => n != 0
  | .vstr s => s != ""
  | .vobj _ => true
  | .varr _ => true

/-- JS loose null test `v == null`: true exactly for `null` and `undefined`. -/
def isNullish : JsVal → Bool
  | .vundefined => true
  | .vnull => true
  | _ => false

/-- Strict test `v !== undefined`. -/
def isDefined : JsVal → Bool
  | .vundefined => false
  | _ => true

/-- Optional-chained access `v?.k`: `undefined` when `v` is nullish, the
field (or `undefined`) otherwise; never raises. -/
def jsPropSafe : JsVal → String → JsVal
  | .vnull, _ => .vundefined
  | .vundefined, _ => .vundefined
  | .vobj o, k => jsGet o k
  | _, _ => .vundefined

/-- Unguarded property access `v.k` as an expression that can raise: a
TypeError on a nullish receiver, otherwise the field (with `undefined` on
non-object receivers). -/
def jsPropEx : JsVal → String → Except String JsVal
  | .vnull, _ => .error "TypeError"
  | .vundefined, _ => .error "TypeError"
  | .vobj o, k => .ok (jsGet o k)
  | _, _ => .ok .vundefined

/-! ## The n8n execution document

Shape of the (JSON) execution document as the code reads it.  Every layer the
source guards with `?.` is an `Option`; n8n item payloads (`item.json`) are
JSON objects, modelled as `JsObj`. -/

/-- One item inside an output channel: the slot may be `null` (outer
`Option`), and the item's `json` field may be absent. -/
structure OutItem where
  json : Option JsObj

/-- One output channel of a run (`run.data.main[i]`): possibly `null`,
otherwise a list of possibly-`null` items. -/
abbrev Channel := Option (List (Option OutItem))

/-- Models `run.error` object, of which only `.message` is read. -/
structure RunError where
  message : Option String

/-- Models `run.data`: only `.main` (the output channels) is read. -/
structure RunData where
  main : Option (List Channel)

/-- One run of a node inside `resultData.runData[nodeName]`. -/
structure Run where
  startTime : Option Nat
  executionTime : Option Nat
  error : Option RunError
  data : Option RunData

/-- Models `execution.data.resultData`: run data keyed by node name, in JS object
key order. -/
structure ResultData where
  runData : Option (List (String × List Run))

/-- Models `execution.data`. -/
structure ExecData where
  resultData : Option ResultData

/-- The annotation object of the execution. -/
structure Annotation where
  customData : Option JsObj

/-- A workflow-definition node (`execution.workflowData.nodes[i]`). -/
structure WfNode where
  name : String
  type : Option String

/-- Models `execution.workflowData`. -/
structure WorkflowData where
  nodes : Option (List WfNode)

/-- An execution document as returned by the n8n API (with `includeData`),
restricted to the fields the code reads.  `id` is kept as the string the code
produces via `String(exec.id)`. -/
structure Execution where
  id : String
  workflowId : String
  status : String
  startedAt : Option Nat
  stoppedAt : Option Nat
  mode : Option String
  customData : Option JsObj
  annotation : Option Annotation
  workflowData : Option WorkflowData
  data : Option ExecData

/-! ## `extractFromExecutionData` (n8n.server.js)

The source walks: top-level `customData`, then `annotation.customData`, then
every node's every run's every channel's every item's `json`, returning the
first value found for the key, else `null`.  The nested `for` loops are
translated into the recursive scanners below. -/

/-- Loop `for (const item of output) { if (item?.json?.[key] !== undefined) return … }`. -/
def scanItems (key : String) : List (Option OutItem) → Option JsVal
  | [] => none
  | item :: rest =>
    match item with
    | none => scanItems key rest
    | some it =>
      match it.json with
      | none => scanItems key rest
      | some o =>
        let v := jsGet o key
        if isDefined v then some v else scanItems key rest

/-- Loop `for (const output of outputs) { if (!output) continue; … }`. -/
def scanChannels (key : String) : List Channel → Option JsVal
  | [] => none
  | ch :: rest =>
    match ch with
    | none => scanChannels key rest
    | some items =>
      match scanItems key items with
      | some v => some v
      | none => scanChannels key rest

/-- Loop `for (const run of runs) { const outputs = run?.data?.main; if (!outputs) continue; … }`. -/
def scanRuns (key : String) : List Run → Option JsVal
  | [] => none
  | run :: rest =>
    match run.data.bind RunData.main with
    | none => scanRuns key rest
    | some outputs =>
      match scanChannels key outputs with
      | some v => some v
      | none => scanRuns key rest

/-- Loop `for (const nodeName of Object.keys(runData)) { … }`. -/
def scanNodes (key : String) : List (String × List Run) → Option JsVal
  | [] => none
  | (_, runs) :: rest =>
    match scanRuns key runs with
    | some v => some v
    | none => scanNodes key rest

/-- Models `extractFromExecutionData(execution, key)`: check `customData`, then
`annotation.customData`, then search all node output data; `null` (here
`none`) when the key is found nowhere or `runData` is missing. -/
def extractFromExecutionData (execution : Execution) (key : String) : Option JsVal :=
  let top := jsGet (execution.customData.getD []) key
  if isDefined top then some top
  else
    let ann := jsGet ((( Execution.annotation execution).bind Annotation.customData).getD []) key
    if isDefined ann then some ann
    else
      match (execution.data.bind ExecData.resultData).bind ResultData.runData with
      | none => none
      | some runData => scanNodes key runData

/-! ### Spec-side description of the extractor (for claim C9)

The spec sentence describes a three-stage cascade with a first-match scan; it
is transcribed here with library combinators, independently of the loop
structure of the source, and proven equal to `extractFromExecutionData`. -/

/-- Look a key up in an optional custom-data map; a present-but-`undefined`
entry counts as absent (JS `!== undefined`). -/
def specLookup (m : Option JsObj) (key : String) : Option JsVal :=
  let v := jsGet (m.getD []) key
  if isDefined v then some v else none

/-- First match for `key` over every node's every run's every output item's
payload, in node-map iteration order. -/
def specScanDocument (execution : Execution) (key : String) : Option JsVal :=
  (((execution.data.bind ExecData.resultData).bind ResultData.runData).getD []).findSome?
    fun node => node.2.findSome?
      fun run => ((run.data.bind RunData.main).getD []).findSome?
        fun ch => (ch.getD []).findSome?
          fun item => (item.bind OutItem.json).bind
            fun o => specLookup (some o) key

/-- The cascade as the spec states it: top-level custom data, else annotation
custom data, else the document scan, else none. -/
def extractSpec (execution : Execution) (key : String) : Option JsVal :=
  (specLookup execution.customData key).orElse fun _ =>
    (specLookup (( Execution.annotation execution).bind Annotation.customData) key).orElse fun _ =>
      specScanDocument execution key

/-! ## Execution sync engine (n8n-sync.server.js)

The `ExecutionOrder` table row, the per-item upsert, the incremental-sync
pagination loop, and the `syncExecutions` entry point with its single-flight
guard and cooldown. -/

/-- Modelled JS `String(v)` builtin (array elements joined with commas). -/
def jsToString : JsVal → String
  | .vundefined => "undefined"
  | .vnull => "null"
  | .vbool b => cond b "true" "false"
  | .vnum n => toString n
  | .vstr s => s
  | .vobj _ => "[object Object]"
  | .varr elems => String.intercalate "," (elems.attach.map fun e => jsToString e.1)
decreasing_by
  have := List.sizeOf_lt_of_mem e.2
  simp only [JsVal.varr.sizeOf_spec]
  omega

/-- Models `orderNumber` derivation in `upsertBatch`:
`extractFromExecutionData(exec, "orderNumber")`, then
`orderNumber != null ? String(orderNumber) : null`. -/
def orderNumberOf (e : Execution) : Option String :=
  match extractFromExecutionData e "orderNumber" with
  | none => none
  | some v => if isNullish v then none else some (jsToString v)

/-- A row of the local `ExecutionOrder` table (primary key `executionId`). -/
structure ExecRow where
  executionId : String
  orderNumber : Option String
  workflowId : String
  status : String
  startedAt : Option Nat
  stoppedAt : Option Nat
  mode : Option String
deriving DecidableEq

/-- The `create` branch of the upsert: every field is set. -/
def createRow (e : Execution) : ExecRow :=
  { executionId := e.id
    orderNumber := orderNumberOf e
    workflowId := e.workflowId
    status := e.status
    startedAt := e.startedAt
    stoppedAt := e.stoppedAt
    mode := e.mode }

/-- The `update` branch of the upsert: only `orderNumber`, `status` and
`stoppedAt` are written. -/
def applyUpdate (e : Execution) (r : ExecRow) : ExecRow :=
  { r with orderNumber := orderNumberOf e, status := e.status, stoppedAt := e.stoppedAt }

/-- Models `prisma.executionOrder.upsert({ where: { executionId } … })` against the
cache, whose rows have unique `executionId` (primary key): update the first
matching row, else insert. -/
def upsertExec (cache : List ExecRow) (e : Execution) : List ExecRow :=
  match cache with
  | [] => [createRow e]
  | r :: rest =>
    if r.executionId == e.id then applyUpdate e r :: rest else r :: upsertExec rest e

/-- Models `upsertBatch`: upsert every item of the batch (the `Promise.all` of
independent row upserts, modelled sequentially). -/
def upsertBatch (cache : List ExecRow) (batch : List Execution) : List ExecRow :=
  batch.foldl upsertExec cache

/-- Row lookup by primary key. -/
def findRow (cache : List ExecRow) (id : String) : Option ExecRow :=
  cache.find? (fun r => r.executionId == id)

/-- The incremental-sync classification: an item is to-sync when
`existingMap.get(String(e.id))` is `undefined` or differs from `e.status`. -/
def toSyncPred (cache : List ExecRow) (e : Execution) : Bool :=
  match (findRow cache e.id).map ExecRow.status with
  | none => true
  | some st => st != e.status

/-- One remote fetch result: a page of executions, or a raised API error.
The remote hands out a `nextCursor` exactly while further pages follow, and a
fetch past the last page returns an empty `data` array. -/
abbrev RemotePages := List (Except String (List Execution))

/-- Observable outcome of one sync pass: final cache, items upserted (in
order), number of page fetches performed, and the raised error if any. -/
structure SyncResult where
  cache : List ExecRow
  upserted : List Execution
  pagesFetched : Nat
  error : Option String

/-- Models `incrementalSync`: page through the remote; per page classify each item
against the cache, upsert exactly the to-sync items, and stop on an empty
page, on a page with zero to-sync items, or on a missing next cursor.  A
fetch failure raises out of the loop. -/
def incSync (cache : List ExecRow) : RemotePages → SyncResult
  | [] => ⟨cache, [], 1, none⟩
  | .error msg :: _ => ⟨cache, [], 1, some msg⟩
  | .ok page :: rest =>
    if page.isEmpty then ⟨cache, [], 1, none⟩
    else
      let toSync := page.filter (toSyncPred cache)
      let cache' := upsertBatch cache toSync
      if toSync.isEmpty then ⟨cache', [], 1, none⟩
      else if rest.isEmpty then ⟨cache', toSync, 1, none⟩
      else
        let t := incSync cache' rest
        ⟨t.cache, toSync ++ t.upserted, t.pagesFetched + 1, t.error⟩

/-- Models `fullBackfill`: page through the whole remote history, upserting every
item of every page. -/
def fullBackfill (cache : List ExecRow) : RemotePages → SyncResult
  | [] => ⟨cache, [], 1, none⟩
  | .error msg :: _ => ⟨cache, [], 1, some msg⟩
  | .ok page :: rest =>
    if page.isEmpty then ⟨cache, [], 1, none⟩
    else
      let cache' := upsertBatch cache page
      if rest.isEmpty then ⟨cache', page, 1, none⟩
      else
        let t := fullBackfill cache' rest
        ⟨t.cache, page ++ t.upserted, t.pagesFetched + 1, t.error⟩

/-- Models `SYNC_COOLDOWN` (60 000 ms). -/
def syncCooldown : Nat := 60000

/-- The process-wide engine state: single-flight flag, last-completed
timestamp, and the `ExecutionOrder` cache. -/
structure EngineState where
  syncInProgress : Bool
  lastSyncTime : Nat
  cache : List ExecRow

/-- Observable outcome of a `syncExecutions()` call: the state after the
call, whether a pass actually ran, and the pass's result when it did. -/
structure SyncCall where
  state : EngineState
  ran : Bool
  result : Option SyncResult

/-- Models `syncExecutions()`: return immediately when a sync is in progress or the
cooldown has not elapsed; otherwise run a full backfill (empty cache) or an
incremental sync, catch and log any raised error, and in the `finally` clear
the guard and set `lastSyncTime` to the completion time `endTime`
(`Date.now()` at entry is `now`). -/
def syncExecutions (st : EngineState) (now endTime : Nat) (remote : RemotePages) : SyncCall :=
  if st.syncInProgress then ⟨st, false, none⟩
  else if now - st.lastSyncTime < syncCooldown then ⟨st, false, none⟩
  else
    let r := if st.cache.length = 0 then fullBackfill st.cache remote
             else incSync st.cache remote
    ⟨⟨false, endTime, r.cache⟩, true, some r⟩

/-- A concrete execution item used in witnesses: id 7, order number 1001
carried in `customData`, status `success`. -/
def exA : Execution :=
  { id := "7", workflowId := "wf1", status := "success",
    startedAt := some 100, stoppedAt := some 200, mode := some "trigger",
    customData := some [("orderNumber", .vstr "1001")],
    annotation := none, workflowData := none, data := none }

/-- A pre-existing cache row for the same execution, still `running`. -/
def rowOld : ExecRow :=
  { executionId := "7", orderNumber := none, workflowId := "wf1",
    status := "running", startedAt := some 100, stoppedAt := none, mode := some "trigger" }

/-! ### Incremental sync (claim C1) -/

/-- A minimal cache row with a given id and status. -/
def rowStatus (id status : String) : ExecRow :=
  { executionId := id, orderNumber := none, workflowId := "wf1", status := status,
    startedAt := none, stoppedAt := none, mode := none }

/-- A minimal remote execution item with a given id and status. -/
def mkExec (id status : String) : Execution :=
  { id := id, workflowId := "wf1", status := status, startedAt := none, stoppedAt := none,
    mode := none, customData := none, annotation := none, workflowData := none, data := none }

/-- The spec's scenario cache `{A: success, B: running}`. -/
def cacheAB : List ExecRow := [rowStatus "A" "success", rowStatus "B" "running"]

/-- The spec's scenario remote: pages `[B: success, C: success]`, then
`[A: success]`, with a third page available that must never be fetched. -/
def pagesScenario : RemotePages :=
  [.ok [mkExec "B" "success", mkExec "C" "success"],
   .ok [mkExec "A" "success"],
   .ok [mkExec "D" "success"]]

/-! ## Node timeline loader (app/routes/app.execution-detail.jsx)

The loader maps every workflow node to a summary, keeps those that ran, and
sorts ascending by the last run's start time (`(a.startTime ?? 0) -
(b.startTime ?? 0)` with a stable JS sort, modelled with `mergeSort`). -/

/-- Models `node.type?.split(".").pop()`: the last dotted segment. -/
def lastSegment (s : String) : String := (s.splitOn ".").getLastD s

/-- One entry of the UI timeline as built by the loader. -/
structure TimelineEntry where
  name : String
  type : Option String
  ran : Bool
  startTime : Option Nat
  executionTime : Option Nat
  error : Option String
  output : JsVal

/-- Models `.filter(Boolean)` applied to a mapped `item?.json` slot: keep a present,
truthy payload. -/
def jsonKeep : Option JsObj → Option JsObj
  | some o => if truthy (.vobj o) then some o else none
  | none => none

/-- Models `.flat()` over one channel slot: a `null` channel stays as one `null`
element; an array channel contributes its items. -/
def channelElems : Channel → List (Option OutItem)
  | none => [none]
  | some items => items

/-- Models `lastRun?.data?.main?.flat()?.map(i => i?.json)?.filter(Boolean) ?? []`. -/
def nodeOutputList (run : Run) : List JsObj :=
  match run.data.bind RunData.main with
  | none => []
  | some channels =>
    ((channels.flatMap channelElems).map (fun it => it.bind OutItem.json)).filterMap jsonKeep

/-- Models `output.length === 1 ? output[0] : output.length > 0 ? output : null`. -/
def outputVal : List JsObj → JsVal
  | [] => .vnull
  | [o] => .vobj o
  | os => .varr (os.map .vobj)

/-- The per-node summary built inside the loader's `map`. -/
def summarize (runData : List (String × List Run)) (node : WfNode) : TimelineEntry :=
  let runs := runData.lookup node.name
  let ran : Bool := match runs with
    | some l => !l.isEmpty
    | none => false
  let lastRun := if ran then (runs.getD []).getLast? else none
  { name := node.name
    type := node.type.map lastSegment
    ran := ran
    startTime := lastRun.bind Run.startTime
    executionTime := lastRun.bind Run.executionTime
    error := (lastRun.bind Run.error).bind RunError.message
    output := outputVal (match lastRun with | some r => nodeOutputList r | none => []) }

/-- The sort comparison `(a.startTime ?? 0) - (b.startTime ?? 0) ≤ 0`. -/
def timelineLe (a b : TimelineEntry) : Bool :=
  a.startTime.getD 0 ≤ b.startTime.getD 0

/-- The loader's timeline: summarize every defined node, keep the ones that
ran, sort ascending by start time. -/
def extractTimeline (execution : Execution) : List TimelineEntry :=
  let workflowNodes := (execution.workflowData.bind WorkflowData.nodes).getD []
  let runData := ((execution.data.bind ExecData.resultData).bind ResultData.runData).getD []
  ((workflowNodes.map (summarize runData)).filter (·.ran)).mergeSort timelineLe

/-- Spec-side description of a run's output items: the output channels
flattened into one list, filtered to the entries carrying a payload, each
payload's inner content extracted. -/
def specOutputItems (run : Run) : List JsObj :=
  ((run.data.bind RunData.main).getD []).flatMap
    (fun ch => (ch.getD []).filterMap (fun item => item.bind OutItem.json))

/-- A run carrying only a start time. -/
def runWithStart (t : Option Nat) : Run :=
  { startTime := t, executionTime := none, error := none, data := none }

/-- The spec's timeline scenario: three defined nodes with start times
[300, null, 100] of which only the first and third ran. -/
def exTimeline : Execution :=
  { id := "9", workflowId := "wf1", status := "success", startedAt := none,
    stoppedAt := none, mode := none, customData := none, annotation := none,
    workflowData := some ⟨some [⟨"n1", some "n8n-nodes-base.set"⟩,
      ⟨"n2", some "n8n-nodes-base.if"⟩, ⟨"n3", some "n8n-nodes-base.code"⟩]⟩,
    data := some ⟨some ⟨some [("n1", [runWithStart (some 300)]),
      ("n3", [runWithStart (some 100)])]⟩⟩ }

/-- A run whose last run carries a single payload item `o`, for the C7
witness. -/
def runSingleOut (o : JsObj) : Run :=
  { startTime := some 10, executionTime := some 1, error := none,
    data := some ⟨some [some [some ⟨some o⟩]]⟩ }

/-! ## Softr client (softr.server.js)

Field-value display resolution, the transactional schema sync, and the
order-number search condition builder. -/

/-- Models the attachment branch's
`value.map(att => ({url: att.url, filename: att.filename || "Download"}))`:
elements are visited in order and the unguarded `att.url` access raises a
TypeError at the first nullish element. -/
def mapAttachments : List JsVal → Except String (List JsVal)
  | [] => .ok []
  | att :: rest =>
    match jsPropEx att "url" with
    | .error e => .error e
    | .ok url =>
      match jsPropEx att "filename" with
      | .error e => .error e
      | .ok f =>
        match mapAttachments rest with
        | .error e => .error e
        | .ok out =>
          .ok (.vobj [("url", url),
            ("filename", if truthy f then f else .vstr "Download")] :: out)

/-- Models `resolveFieldValue(value)`: `null`/`undefined` pass through; a non-array
object whose `label` is not loosely null resolves to that label; a non-empty
array whose first element has a truthy `url` maps elementwise to
`{url: att.url, filename: att.filename || "Download"}` (raising a TypeError
on a nullish element); everything else passes through unchanged. -/
def resolveFieldValue (value : JsVal) : Except String JsVal :=
  if isNullish value then .ok value
  else
    match value with
    | .vobj fs =>
      if isNullish (jsGet fs "label") then .ok value else .ok (jsGet fs "label")
    | .varr elems =>
      match elems with
      | [] => .ok value
      | x :: xs =>
        if truthy (jsPropSafe x "url") then
          (mapAttachments (x :: xs)).map .varr
        else .ok value
    | _ => .ok value

/-! ### Transactional schema sync (`syncSoftrData`)

The remote is modelled by the outcome of `getTables` (the listed table ids)
and a per-id outcome of `getTable` (detail fetch; `result.data ?? null`).
`prisma.$transaction` is the store's atomic-write collaborator: the
operations inside the callback either all apply or the store is left
untouched. -/

/-- Modelled `JSON.stringify` builtin (string escaping elided). -/
def jsStringify : JsVal → String
  | .vundefined => "null"
  | .vnull => "null"
  | .vbool b => cond b "true" "false"
  | .vnum n => toString n
  | .vstr s => "\"" ++ s ++ "\""
  | .vobj fs => "\x7b" ++ String.intercalate ","
      (fs.attach.map fun kv => "\"" ++ kv.1.1 ++ "\":" ++ jsStringify kv.1.2) ++ "\x7d"
  | .varr xs => "[" ++ String.intercalate ","
      (xs.attach.map fun v => jsStringify v.1) ++ "]"
decreasing_by
  · have h1 := List.sizeOf_lt_of_mem kv.2
    have h2 : sizeOf kv.1.2 < sizeOf kv.1 := by
      obtain ⟨k, v⟩ := kv.1
      simp
    simp only [JsVal.vobj.sizeOf_spec]
    omega
  · have h1 := List.sizeOf_lt_of_mem v.2
    simp only [JsVal.varr.sizeOf_spec]
    omega

/-- A field as returned by the Softr table-detail endpoint. -/
structure FetchedField where
  id : String
  name : String
  type : String
  required : Option Bool
  readonly : Option Bool
  locked : Option Bool
  allowMultipleEntries : Option Bool
  defaultValue : Option JsVal
  options : Option JsVal
  createdAt : Option String
  updatedAt : Option String

/-- A table detail as returned by the Softr API (`result.data`). -/
structure FetchedTable where
  id : String
  name : String
  description : Option String
  primaryFieldId : Option String
  defaultViewId : Option String
  fields : Option (List FetchedField)

/-- A row of the local `SoftrField` table. -/
structure SoftrFieldRow where
  id : String
  tableId : String
  name : String
  type : String
  required : Bool
  readonly : Bool
  locked : Bool
  allowMultipleEntries : Bool
  defaultValue : Option String
  options : Option String
  createdAt : Option String
  updatedAt : Option String
deriving DecidableEq

/-- A row of the local `SoftrTable` table. -/
structure SoftrTableRow where
  id : String
  name : String
  description : Option String
  primaryFieldId : Option String
  defaultViewId : Option String
deriving DecidableEq

/-- The local schema cache: the two tables mutated by the sync.  Dates are
carried as the remote's date strings (`new Date` parsing is the store's
internal representation). -/
structure SoftrDB where
  tables : List SoftrTableRow
  fields : List SoftrFieldRow
deriving DecidableEq

/-- The nested `fields.create` payload for one fetched field. -/
def toFieldRow (tableId : String) (f : FetchedField) : SoftrFieldRow :=
  { id := f.id, tableId := tableId, name := f.name, type := f.type,
    required := f.required.getD false, readonly := f.readonly.getD false,
    locked := f.locked.getD false,
    allowMultipleEntries := f.allowMultipleEntries.getD false,
    defaultValue := match f.defaultValue with
      | some v => if isNullish v then none else some (jsToString v)
      | none => none,
    options := match f.options with
      | some v => if truthy v then some (jsStringify v) else none
      | none => none,
    createdAt := match f.createdAt with
      | some s => if s = "" then none else some s
      | none => none,
    updatedAt := match f.updatedAt with
      | some s => if s = "" then none else some s
      | none => none }

/-- The `softrTable.create` payload for one fetched table. -/
def toTableRow (t : FetchedTable) : SoftrTableRow :=
  { id := t.id, name := t.name, description := t.description,
    primaryFieldId := t.primaryFieldId, defaultViewId := t.defaultViewId }

/-- The field rows created nested under one fetched table
(`(table.fields ?? []).map(…)`). -/
def fieldRowsOf (t : FetchedTable) : List SoftrFieldRow :=
  (t.fields.getD []).map (toFieldRow t.id)

/-- One primitive store operation issued inside the transaction callback. -/
inductive DbOp where
  | deleteAllFields
  | deleteAllTables
  | createTable (t : FetchedTable)

/-- Apply one operation; `create` enforces the primary-key uniqueness of
table and field ids and fails the transaction on violation. -/
def applyOp (db : SoftrDB) : DbOp → Except String SoftrDB
  | .deleteAllFields => .ok { db with fields := [] }
  | .deleteAllTables => .ok { db with tables := [] }
  | .createTable t =>
    if (∃ r ∈ db.tables, r.id = t.id) ∨
        (∃ f ∈ fieldRowsOf t, ∃ g ∈ db.fields, g.id = f.id) ∨
        ¬ ((fieldRowsOf t).map SoftrFieldRow.id).Nodup then
      .error "Unique constraint failed"
    else
      .ok { tables := db.tables ++ [toTableRow t], fields := db.fields ++ fieldRowsOf t }

/-- Run the transaction callback's operations in order; the first failure
aborts (and, at the `syncSoftrData` level, leaves the store untouched —
`prisma.$transaction` atomicity). -/
def runOps (db : SoftrDB) : List DbOp → Except String SoftrDB
  | [] => .ok db
  | op :: rest =>
    match applyOp db op with
    | .ok db' => runOps db' rest
    | .error e => .error e

/-- The operation list of the sync's transaction callback: delete all field
rows, delete all table rows, then create every fetched table with its
nested fields. -/
def syncOps (tables : List FetchedTable) : List DbOp :=
  DbOp.deleteAllFields :: DbOp.deleteAllTables :: tables.map DbOp.createTable

/-- Models `Promise.all`: all fulfilled values, or the first rejection. -/
def promiseAll : List (Except String α) → Except String (List α)
  | [] => .ok []
  | .error e :: _ => .error e
  | .ok a :: rest => (promiseAll rest).map (a :: ·)

/-- Models `syncSoftrData()`: list the tables, fetch every detail via `Promise.all`
(one rejection rejects the whole sync before any write), keep the non-null
details (`detailed.filter(Boolean)`), run the atomic replace transaction,
and return the count of tables synced.  The first component is the store
afterwards; the second the returned count or the raised error. -/
def syncSoftrData (listRes : Except String (List String))
    (detail : String → Except String (Option FetchedTable))
    (db : SoftrDB) : SoftrDB × Except String Nat :=
  match listRes with
  | .error e => (db, .error e)
  | .ok ids =>
    match promiseAll (ids.map detail) with
    | .error e => (db, .error e)
    | .ok detailed =>
      let tables := detailed.filterMap id
      match runOps db (syncOps tables) with
      | .ok db' => (db', .ok tables.length)
      | .error e => (db, .error e)

/-- A fetched table fixture with one NUMBER field. -/
def tblFetched (id name : String) : FetchedTable :=
  ⟨id, name, none, none, none,
    some [⟨id ++ "-f1", "ID", "NUMBER", some true, none, none, none, none, none, none, none⟩]⟩

/-- A pre-existing three-table cache. -/
def dbOld : SoftrDB :=
  ⟨[⟨"o1", "Old1", none, none, none⟩, ⟨"o2", "Old2", none, none, none⟩,
    ⟨"o3", "Old3", none, none, none⟩],
   [⟨"of1", "o1", "ID", "TEXT", false, false, false, false, none, none, none, none⟩]⟩

/-- A detail fetcher whose fetch for table `t2` raises. -/
def detailBoom (i : String) : Except String (Option FetchedTable) :=
  if i = "t2" then .error "boom" else .ok (some (tblFetched i ("T" ++ i)))

/-- A detail fetcher that succeeds for every id, returning nothing (`null`
data) for `t3`. -/
def detailOk (i : String) : Except String (Option FetchedTable) :=
  if i = "t3" then .ok none else .ok (some (tblFetched i ("T" ++ i)))

/-! ### Order-number search conditions (`searchSoftrRecords`)

Only the filter-condition construction is modelled: the remote search call,
result mapping and grouping sit behind it and do not affect claim C10. -/

/-- A cached table as `getCachedTables()` hands it to the search (id, name
and the included field rows). -/
structure CachedTable where
  id : String
  name : String
  fields : List SoftrFieldRow

/-- The static `TABLE_SEARCH_FIELDS` configuration. -/
def TABLE_SEARCH_FIELDS (name : String) : Option (List String) :=
  if name = "Kleurstalen" then some ["orderNumber"]
  else if name = "Ne DistriService" then some ["orderNumber"]
  else if name = "Webattelier - lines" then some ["OrderID"]
  else if name = "Webattelier - orders" then some ["ID"]
  else none

/-- Models `NUMBER_TYPES = new Set(["NUMBER", "FORMULA"])`. -/
def NUMBER_TYPES (t : String) : Bool := t = "NUMBER" || t = "FORMULA"

/-- The `rightSide` of a condition: a number (`none` models `NaN`) or a
string. -/
inductive RightSide where
  | num (value : Option Int)
  | str (value : String)
deriving DecidableEq

/-- One `{leftSide, operator, rightSide}` equality condition. -/
structure FieldCondition where
  leftSide : String
  operator : String
  rightSide : RightSide
deriving DecidableEq

/-- The per-table filter condition: a single condition or an OR of several. -/
inductive SearchCondition where
  | single (c : FieldCondition)
  | disj (operator : String) (conditions : List FieldCondition)
deriving DecidableEq

/-- Whitespace class of the modelled JS `trim()` builtin (ASCII subset). -/
def isJsSpace (c : Char) : Bool :=
  c = ' ' ∨ c = '\t' ∨ c = '\n' ∨ c = '\r' ∨ c = '\x0b' ∨ c = '\x0c'

/-- Modelled `query.trim()`: strip leading and trailing whitespace. -/
def jsTrim (s : String) : String :=
  String.mk (((s.data.dropWhile isJsSpace).reverse.dropWhile isJsSpace).reverse)

/-- Decimal digit-string parse used by the modelled `Number()` builtin. -/
def digitsToNat? (cs : List Char) : Option Nat :=
  if cs ≠ [] ∧ cs.all Char.isDigit then
    some (cs.foldl (fun n c => n * 10 + (c.toNat - 48)) 0)
  else none

/-- Modelled `Number()` builtin as the search applies it (to an
already-trimmed string): decimal integers with an optional sign, `none` for
`NaN`; `Number("") = 0`. -/
def jsNumber (s : String) : Option Int :=
  match s.data with
  | [] => some 0
  | '-' :: rest => (digitsToNat? rest).map (fun n => -(n : Int))
  | l => (digitsToNat? l).map (fun n => (n : Int))

/-- The equality conditions built for one table: one per configured field
name found among the table's fields, `IS` against the trimmed query, coerced
to a number for NUMBER/FORMULA fields. -/
def tableConditions (query : String) (table : CachedTable) : List FieldCondition :=
  let fieldNames := (TABLE_SEARCH_FIELDS table.name).getD []
  let searchableFields := table.fields.filter (fun f => fieldNames.contains f.name)
  searchableFields.map fun f =>
    { leftSide := f.id, operator := "IS",
      rightSide := if NUMBER_TYPES f.type then .num (jsNumber (jsTrim query))
                   else .str (jsTrim query) }

/-- Models `conditions.length === 1 ? conditions[0] : {operator: "OR", conditions}`,
with no condition at all (`searchableFields.length === 0`) yielding none. -/
def combineConditions : List FieldCondition → Option SearchCondition
  | [] => none
  | [c] => some (.single c)
  | cs => some (.disj "OR" cs)

/-- The per-table filter conditions the search issues for a query: nothing
for an empty/whitespace-only query or an empty cache; otherwise one combined
condition per configured table that has a matching field. -/
def searchPlan (query : String) (tables : List CachedTable) : List (String × SearchCondition) :=
  if jsTrim query = "" then []
  else if tables.isEmpty then []
  else
    (tables.filter (fun t => (TABLE_SEARCH_FIELDS t.name).isSome)).filterMap
      (fun t => (combineConditions (tableConditions query t)).map (fun c => (t.id, c)))

/-- A cached "Webattelier - orders" table whose `ID` field is numeric. -/
def tblOrders : CachedTable :=
  ⟨"tw", "Webattelier - orders",
    [⟨"fld1", "tw", "ID", "NUMBER", false, false, false, false, none, none, none, none⟩]⟩

/-! ## Theorems -/

theorem scanItems_eq_findSome (key : String) (items : List (Option OutItem)) :
    scanItems key items =
      items.findSome? (fun item => (item.bind OutItem.json).bind fun o => specLookup (some o) key) := by
  induction items with
  | nil => rfl
  | cons item rest ih =>
    cases item with
    | none => simpa [scanItems] using ih
    | some it =>
      cases h : it.json with
      | none => simp [scanItems, h, ih]
      | some o =>
        simp only [scanItems, h, List.findSome?, Option.bind_some, specLookup]
        by_cases hd : isDefined (jsGet o key) = true <;> simp [hd, h, ih, specLookup]

theorem scanChannels_eq_findSome (key : String) (chs : List Channel) :
    scanChannels key chs = chs.findSome? (fun ch => scanItems key (ch.getD [])) := by
  induction chs with
  | nil => rfl
  | cons ch rest ih =>
    cases ch with
    | none => simp [scanChannels, scanItems, ih]
    | some items =>
      simp only [scanChannels, List.findSome?, Option.getD_some]
      cases scanItems key items <;> simp [ih]

theorem scanRuns_eq_findSome (key : String) (runs : List Run) :
    scanRuns key runs =
      runs.findSome? (fun run => scanChannels key ((run.data.bind RunData.main).getD [])) := by
  induction runs with
  | nil => rfl
  | cons run rest ih =>
    cases h : run.data.bind RunData.main with
    | none => simp [scanRuns, h, scanChannels, ih]
    | some outputs =>
      simp only [scanRuns, h, List.findSome?, Option.getD_some]
      cases scanChannels key outputs <;> simp [ih]

theorem scanNodes_eq_findSome (key : String) (nodes : List (String × List Run)) :
    scanNodes key nodes = nodes.findSome? (fun node => scanRuns key node.2) := by
  induction nodes with
  | nil => rfl
  | cons node rest ih =>
    obtain ⟨name, runs⟩ := node
    simp only [scanNodes, List.findSome?]
    cases scanRuns key runs <;> simp [ih]

/-- Claim C9: `extractFromExecutionData` returns the value from the top-level
custom-data map when the key is present there, otherwise from the annotation's
custom-data map, otherwise the first match found by scanning every node's
every run's every output item's payload in node-map iteration order, and
`none` when the key is absent everywhere.  The function is total on all
document shapes (structural deviations yield `none`; there is nothing to
raise). -/
theorem extractFromExecutionData_eq_spec (execution : Execution) (key : String) :
    extractFromExecutionData execution key = extractSpec execution key := by
  unfold extractFromExecutionData extractSpec specLookup
  by_cases h1 : isDefined (jsGet (execution.customData.getD []) key) = true
  · simp [h1, Option.orElse]
  · simp only [h1]
    by_cases h2 :
        isDefined (jsGet ((( Execution.annotation execution).bind Annotation.customData).getD []) key) = true
    · simp [h2, Option.orElse]
    · simp only [h2]
      cases h3 : (execution.data.bind ExecData.resultData).bind ResultData.runData with
      | none =>
        simp [Option.orElse, h1, h2, specScanDocument, h3]
      | some runData =>
        simp [Option.orElse, h1, h2, specScanDocument, h3, scanNodes_eq_findSome,
          scanRuns_eq_findSome, scanChannels_eq_findSome, scanItems_eq_findSome]

/-! ### Upsert semantics (claim C5) -/

theorem upsertExec_not_found {cache : List ExecRow} {e : Execution}
    (h : findRow cache e.id = none) : upsertExec cache e = cache ++ [createRow e] := by
  induction cache with
  | nil => rfl
  | cons r rest ih =>
    by_cases hp : (r.executionId == e.id) = true
    · simp [findRow, List.find?_cons_of_pos, hp] at h
    · rw [findRow, List.find?_cons_of_neg _ (by simp [hp])] at h
      simp [upsertExec, hp, ih h]

theorem findRow_upsertExec_not_found {cache : List ExecRow} {e : Execution}
    (h : findRow cache e.id = none) :
    findRow (upsertExec cache e) e.id = some (createRow e) := by
  rw [upsertExec_not_found h]
  unfold findRow at h ⊢
  simp [List.find?_append, h, createRow]

theorem findRow_upsertExec_found {cache : List ExecRow} {e : Execution} {r : ExecRow}
    (h : findRow cache e.id = some r) :
    findRow (upsertExec cache e) e.id = some (applyUpdate e r) := by
  induction cache with
  | nil => simp [findRow] at h
  | cons r' rest ih =>
    by_cases hp : (r'.executionId == e.id) = true
    · simp only [findRow, List.find?_cons, hp] at h
      obtain rfl : r' = r := by simpa using h
      have hp' : ((applyUpdate e r').executionId == e.id) = true := by
        simpa [applyUpdate] using hp
      simp [upsertExec, hp, findRow, List.find?_cons, hp']
    · simp only [findRow, List.find?_cons, hp] at h
      rw [upsertExec, if_neg (by simp [hp])]
      simp only [findRow, List.find?_cons, hp]
      exact ih h

theorem applyUpdate_createRow (e : Execution) : applyUpdate e (createRow e) = createRow e := rfl

theorem applyUpdate_applyUpdate (e : Execution) (r : ExecRow) :
    applyUpdate e (applyUpdate e r) = applyUpdate e r := rfl

theorem upsertExec_idem (cache : List ExecRow) (e : Execution) :
    upsertExec (upsertExec cache e) e = upsertExec cache e := by
  induction cache with
  | nil =>
    have hp : ((createRow e).executionId == e.id) = true := by simp [createRow]
    simp [upsertExec, hp, applyUpdate_createRow]
  | cons r rest ih =>
    by_cases hp : (r.executionId == e.id) = true
    · have hp' : ((applyUpdate e r).executionId == e.id) = true := by
        simpa [applyUpdate] using hp
      simp [upsertExec, hp, hp', applyUpdate_applyUpdate]
    · simp [upsertExec, hp, ih]

/-- Claim C5: Per applied execution item: when no cache row exists for its id,
the upsert inserts a row with all fields set (`createRow`); when a row
exists, exactly `orderNumber`, `status` and `stoppedAt` are refreshed while
`executionId`, `startedAt`, `workflowId` and `mode` are left unchanged; and
applying the same item twice leaves the cache identical to applying it
once. -/
theorem upsert_semantics (cache : List ExecRow) (e : Execution) :
    (findRow cache e.id = none →
      upsertExec cache e = cache ++ [createRow e] ∧
      findRow (upsertExec cache e) e.id = some (createRow e)) ∧
    (∀ r : ExecRow, findRow cache e.id = some r →
      findRow (upsertExec cache e) e.id = some (applyUpdate e r) ∧
      (applyUpdate e r).orderNumber = orderNumberOf e ∧
      (applyUpdate e r).status = e.status ∧
      (applyUpdate e r).stoppedAt = e.stoppedAt ∧
      (applyUpdate e r).executionId = r.executionId ∧
      (applyUpdate e r).startedAt = r.startedAt ∧
      (applyUpdate e r).workflowId = r.workflowId ∧
      (applyUpdate e r).mode = r.mode) ∧
    upsertExec (upsertExec cache e) e = upsertExec cache e := by
  refine ⟨fun h => ⟨upsertExec_not_found h, findRow_upsertExec_not_found h⟩,
    fun r h => ⟨findRow_upsertExec_found h, rfl, rfl, rfl, rfl, rfl, rfl, rfl⟩,
    upsertExec_idem cache e⟩

theorem upsert_semantics_witness :
    (findRow [] exA.id = none ∧
      upsertExec [] exA = [] ++ [createRow exA] ∧
      findRow (upsertExec [] exA) exA.id = some (createRow exA)) ∧
    (findRow [rowOld] exA.id = some rowOld ∧
      findRow (upsertExec [rowOld] exA) exA.id = some (applyUpdate exA rowOld) ∧
      (applyUpdate exA rowOld).startedAt = rowOld.startedAt) ∧
    upsertExec (upsertExec [rowOld] exA) exA = upsertExec [rowOld] exA :=
  ⟨⟨rfl, ((upsert_semantics [] exA).1 rfl).1, ((upsert_semantics [] exA).1 rfl).2⟩,
    ⟨by decide, ((upsert_semantics [rowOld] exA).2.1 rowOld (by decide)).1,
      ((upsert_semantics [rowOld] exA).2.1 rowOld (by decide)).2.2.2.2.2.1⟩,
    (upsert_semantics [rowOld] exA).2.2⟩

/-- Claim C1: Incremental sync classifies an item as to-sync iff its id is
absent from the cache or its status differs from the cached status; a
fetched page's upserts are exactly its to-sync items; pagination halts as
soon as a non-empty page produces zero to-sync items (no further fetch,
whatever the remote still holds); and on the spec's scenario exactly B and C
are upserted and only two pages are fetched. -/
theorem incrementalSync_correct :
    (∀ (cache : List ExecRow) (e : Execution),
      toSyncPred cache e = true ↔
        findRow cache e.id = none ∨ ∃ r, findRow cache e.id = some r ∧ r.status ≠ e.status) ∧
    (∀ (cache : List ExecRow) (page : List Execution),
      incSync cache [.ok page] =
        ⟨upsertBatch cache (page.filter (toSyncPred cache)),
          page.filter (toSyncPred cache), 1, none⟩) ∧
    (∀ (cache : List ExecRow) (page : List Execution) (rest : RemotePages),
      page ≠ [] → page.filter (toSyncPred cache) = [] →
      incSync cache (.ok page :: rest) = ⟨cache, [], 1, none⟩) ∧
    (incSync cacheAB pagesScenario).upserted =
      [mkExec "B" "success", mkExec "C" "success"] ∧
    (incSync cacheAB pagesScenario).pagesFetched = 2 ∧
    (incSync cacheAB pagesScenario).cache =
      upsertBatch cacheAB [mkExec "B" "success", mkExec "C" "success"] ∧
    (incSync cacheAB pagesScenario).error = none := by
  refine ⟨?_, ?_, ?_, rfl, rfl, rfl, rfl⟩
  · intro cache e
    unfold toSyncPred
    cases h : findRow cache e.id with
    | none => simp [h]
    | some r => simp [h, bne_iff_ne]
  · intro cache page
    cases page with
    | nil => simp [incSync, upsertBatch]
    | cons p ps =>
      by_cases hf : ((p :: ps).filter (toSyncPred cache)).isEmpty = true
      · have hf' : (p :: ps).filter (toSyncPred cache) = [] := by
          simpa [List.isEmpty_iff] using hf
        simp [incSync, hf, hf']
      · simp [incSync, hf]
  · intro cache page rest hne hf
    cases page with
    | nil => exact absurd rfl hne
    | cons p ps =>
      have hf' : ((p :: ps).filter (toSyncPred cache)).isEmpty = true := by
        simp [hf]
      simp [incSync, hf', hf, upsertBatch]

theorem incrementalSync_correct_witness :
    (([mkExec "A" "success"] : List Execution) ≠ [] ∧
      ([mkExec "A" "success"].filter (toSyncPred cacheAB) = []) ∧
      incSync cacheAB [.ok [mkExec "A" "success"], .ok [mkExec "D" "success"]] =
        ⟨cacheAB, [], 1, none⟩) ∧
    incSync cacheAB [.ok [mkExec "B" "error"]] =
      ⟨upsertBatch cacheAB ([mkExec "B" "error"].filter (toSyncPred cacheAB)),
        [mkExec "B" "error"].filter (toSyncPred cacheAB), 1, none⟩ :=
  ⟨⟨by simp, rfl,
      incrementalSync_correct.2.2.1 cacheAB [mkExec "A" "success"]
        [.ok [mkExec "D" "success"]] (by simp) rfl⟩,
    incrementalSync_correct.2.1 cacheAB [mkExec "B" "error"]⟩

/-! ### Entry-point error handling (claim C3)

The model has no exceptions: a raised error inside the pass surfaces as
`SyncResult.error = some msg` while `syncExecutions` still returns an
`EngineState` — the structural counterpart of the `catch`/`finally` in the
source, where the error is logged and swallowed and the `finally` clears the
guard and stamps `lastSyncTime`. -/

theorem incSync_error_after_page (cache : List ExecRow) (page : List Execution)
    (m : String) (rest : RemotePages)
    (hne : page.filter (toSyncPred cache) ≠ []) :
    incSync cache (.ok page :: .error m :: rest) =
      ⟨upsertBatch cache (page.filter (toSyncPred cache)),
        page.filter (toSyncPred cache), 2, some m⟩ := by
  cases page with
  | nil => simp at hne
  | cons p ps =>
    have hf : ((p :: ps).filter (toSyncPred cache)).isEmpty = false := by
      cases h : (p :: ps).filter (toSyncPred cache) with
      | nil => exact absurd h hne
      | cons a l => simp [h]
    simp [incSync, hf]

/-- Claim C3: When the pass inside `syncExecutions` raises (after the guard and
cooldown admitted it), the call still returns a state with the single-flight
flag cleared and `lastSyncTime` stamped (the `finally`), the cache retains
every row upserted before the error (no partial-pass rollback), and a call
issued once the cooldown has elapsed runs a pass again; moreover a pass that
fails on the second fetch ends early (two fetches) keeping the first page's
upserts. -/
theorem syncExecutions_error_recovery :
    (∀ (st : EngineState) (now endTime : Nat) (remote : RemotePages)
        (r : SyncResult) (msg : String),
      st.syncInProgress = false →
      ¬ now - st.lastSyncTime < syncCooldown →
      (syncExecutions st now endTime remote).result = some r →
      r.error = some msg →
      (syncExecutions st now endTime remote).ran = true ∧
      (syncExecutions st now endTime remote).state.syncInProgress = false ∧
      (syncExecutions st now endTime remote).state.lastSyncTime = endTime ∧
      (syncExecutions st now endTime remote).state.cache = r.cache ∧
      ∀ remote2 : RemotePages,
        (syncExecutions (syncExecutions st now endTime remote).state
          (endTime + syncCooldown) (endTime + syncCooldown) remote2).ran = true) ∧
    (∀ (cache : List ExecRow) (page : List Execution) (m : String) (rest : RemotePages),
      page.filter (toSyncPred cache) ≠ [] →
      incSync cache (.ok page :: .error m :: rest) =
        ⟨upsertBatch cache (page.filter (toSyncPred cache)),
          page.filter (toSyncPred cache), 2, some m⟩) := by
  refine ⟨?_, incSync_error_after_page⟩
  intro st now endTime remote r msg h1 h2 hres _herr
  have hcall : syncExecutions st now endTime remote =
      ⟨⟨false, endTime,
        (if st.cache.length = 0 then fullBackfill st.cache remote
         else incSync st.cache remote).cache⟩, true,
        some (if st.cache.length = 0 then fullBackfill st.cache remote
         else incSync st.cache remote)⟩ := by
    unfold syncExecutions
    rw [h1]
    simp [h2]
  rw [hcall] at hres ⊢
  obtain rfl : (if st.cache.length = 0 then fullBackfill st.cache remote
      else incSync st.cache remote) = r := by simpa using hres
  refine ⟨rfl, rfl, rfl, rfl, ?_⟩
  intro remote2
  unfold syncExecutions
  simp

theorem syncExecutions_error_recovery_witness :
    (EngineState.syncInProgress ⟨false, 0, cacheAB⟩ = false ∧
      ¬ (syncCooldown + 5) - EngineState.lastSyncTime ⟨false, 0, cacheAB⟩ < syncCooldown ∧
      (syncExecutions ⟨false, 0, cacheAB⟩ (syncCooldown + 5) (syncCooldown + 9)
        [.ok [mkExec "C" "success"], .error "boom"]).state.lastSyncTime = syncCooldown + 9 ∧
      (syncExecutions ⟨false, 0, cacheAB⟩ (syncCooldown + 5) (syncCooldown + 9)
        [.ok [mkExec "C" "success"], .error "boom"]).state.cache =
        (incSync cacheAB [.ok [mkExec "C" "success"], .error "boom"]).cache) ∧
    ([mkExec "C" "success"].filter (toSyncPred cacheAB) ≠ [] ∧
      incSync cacheAB [.ok [mkExec "C" "success"], .error "boom"] =
        ⟨upsertBatch cacheAB ([mkExec "C" "success"].filter (toSyncPred cacheAB)),
          [mkExec "C" "success"].filter (toSyncPred cacheAB), 2, some "boom"⟩) :=
  ⟨⟨rfl, by decide,
      (syncExecutions_error_recovery.1 ⟨false, 0, cacheAB⟩ (syncCooldown + 5) (syncCooldown + 9)
        [.ok [mkExec "C" "success"], .error "boom"]
        (incSync cacheAB [.ok [mkExec "C" "success"], .error "boom"]) "boom"
        rfl (by decide) rfl rfl).2.2.1,
      (syncExecutions_error_recovery.1 ⟨false, 0, cacheAB⟩ (syncCooldown + 5) (syncCooldown + 9)
        [.ok [mkExec "C" "success"], .error "boom"]
        (incSync cacheAB [.ok [mkExec "C" "success"], .error "boom"]) "boom"
        rfl (by decide) rfl rfl).2.2.2.1⟩,
    ⟨by simp [toSyncPred, cacheAB, mkExec, rowStatus, findRow],
      syncExecutions_error_recovery.2 cacheAB [mkExec "C" "success"] "boom" []
        (by simp [toSyncPred, cacheAB, mkExec, rowStatus, findRow])⟩⟩

theorem filterMap_jsonKeep_map (its : List (Option OutItem)) :
    ((its.map (fun it => it.bind OutItem.json)).filterMap jsonKeep) =
      its.filterMap (fun it => it.bind OutItem.json) := by
  induction its with
  | nil => rfl
  | cons it rest ih =>
    cases h : it.bind OutItem.json with
    | none => simp [jsonKeep, h, ih]
    | some o => simp [jsonKeep, h, ih, truthy]

theorem nodeOutputList_eq_spec (run : Run) : nodeOutputList run = specOutputItems run := by
  unfold nodeOutputList specOutputItems
  cases run.data.bind RunData.main with
  | none => rfl
  | some channels =>
    induction channels with
    | nil => rfl
    | cons ch rest ih =>
      cases ch with
      | none =>
        simpa [channelElems, jsonKeep] using ih
      | some its =>
        simp only [List.flatMap_cons, channelElems, List.map_append, List.filterMap_append,
          Option.getD_some, List.flatMap_cons] at ih ⊢
        rw [filterMap_jsonKeep_map, ih]

unseal List.merge List.mergeSort in
/-- Claim C6: The timeline is sorted ascending by the last run's start time
(missing start time counting as 0, hence earliest), it is a permutation of
the summaries of exactly the defined nodes — an entry's `ran` is true iff
the node's run list exists and is non-empty, and only `ran` entries are
kept — and on nodes with start times [300, null, 100] and
ran [true, false, true] it returns exactly the two entries [100, 300]. -/
theorem timeline_ordering :
    (∀ execution : Execution,
      ((extractTimeline execution).Pairwise fun a b =>
        a.startTime.getD 0 ≤ b.startTime.getD 0) ∧
      List.Perm (extractTimeline execution)
        ((((execution.workflowData.bind WorkflowData.nodes).getD []).map
          (summarize (((execution.data.bind ExecData.resultData).bind
            ResultData.runData).getD []))).filter (·.ran))) ∧
    (∀ (runData : List (String × List Run)) (node : WfNode),
      (summarize runData node).ran = true ↔
        ∃ runs, runData.lookup node.name = some runs ∧ runs ≠ []) ∧
    (∀ a b : TimelineEntry, a.startTime = none → timelineLe a b = true) ∧
    (extractTimeline exTimeline).map (fun e => (e.name, e.startTime)) =
      [("n3", some 100), ("n1", some 300)] := by
  refine ⟨fun execution => ⟨?_, ?_⟩, ?_, ?_, rfl⟩
  · have h := @List.sorted_mergeSort TimelineEntry timelineLe
      (fun a b c hab hbc => by
        simp only [timelineLe, decide_eq_true_eq] at hab hbc ⊢; omega)
      (fun a b => by
        rcases Nat.le_total (a.startTime.getD 0) (b.startTime.getD 0) with h | h <;>
          simp [timelineLe, h])
      ((((execution.workflowData.bind WorkflowData.nodes).getD []).map
        (summarize (((execution.data.bind ExecData.resultData).bind
          ResultData.runData).getD []))).filter (·.ran))
    refine List.Pairwise.imp ?_ h
    intro a b hab
    simpa [timelineLe] using hab
  · simpa [extractTimeline] using
      List.mergeSort_perm ((((execution.workflowData.bind WorkflowData.nodes).getD []).map
        (summarize (((execution.data.bind ExecData.resultData).bind
          ResultData.runData).getD []))).filter (·.ran)) timelineLe
  · intro runData node
    cases h : runData.lookup node.name with
    | none => simp [summarize, h]
    | some l =>
      cases l with
      | nil => simp [summarize, h]
      | cons a l' => simp [summarize, h]
  · intro a b ha
    simp [timelineLe, ha]

theorem timeline_ordering_witness :
    ((⟨"a", none, true, none, none, none, .vnull⟩ : TimelineEntry).startTime = none ∧
      timelineLe ⟨"a", none, true, none, none, none, .vnull⟩
        ⟨"b", none, true, some 5, none, none, .vnull⟩ = true) ∧
    ((summarize [("n1", [runWithStart (some 300)])] ⟨"n1", none⟩).ran = true ↔
      ∃ runs, [("n1", [runWithStart (some 300)])].lookup "n1" = some runs ∧ runs ≠ []) :=
  ⟨⟨rfl, timeline_ordering.2.2.1 ⟨"a", none, true, none, none, none, .vnull⟩
      ⟨"b", none, true, some 5, none, none, .vnull⟩ rfl⟩,
    timeline_ordering.2.1 [("n1", [runWithStart (some 300)])] ⟨"n1", none⟩⟩

/-- Claim C7: A timeline entry's output is computed from the node's last run:
the run's output channels are flattened into one list, filtered to the
entries carrying a payload, each payload's inner content extracted
(`nodeOutputList` equals this description); exactly one resulting item is
exposed unwrapped, more than one as the list, and none as no output
(`null`). -/
theorem timeline_output_spec :
    (∀ run : Run, nodeOutputList run = specOutputItems run) ∧
    (∀ (runData : List (String × List Run)) (node : WfNode) (runs : List Run) (r : Run),
      runData.lookup node.name = some runs → runs.getLast? = some r →
      (summarize runData node).output = outputVal (specOutputItems r)) ∧
    outputVal [] = .vnull ∧
    (∀ o : JsObj, outputVal [o] = .vobj o) ∧
    (∀ (o₁ o₂ : JsObj) (os : List JsObj),
      outputVal (o₁ :: o₂ :: os) = .varr ((o₁ :: o₂ :: os).map .vobj)) := by
  refine ⟨nodeOutputList_eq_spec, ?_, rfl, fun o => rfl, fun o₁ o₂ os => rfl⟩
  intro runData node runs r hl hr
  cases runs with
  | nil => simp at hr
  | cons a l =>
    simp only [summarize, hl, List.isEmpty_cons, Bool.not_false, Option.getD_some, if_pos]
    rw [hr]
    show outputVal (nodeOutputList r) = outputVal (specOutputItems r)
    rw [nodeOutputList_eq_spec]

theorem timeline_output_spec_witness :
    ([("n1", [runWithStart (some 1), runSingleOut [("orderNumber", .vstr "77")]])].lookup "n1" =
        some [runWithStart (some 1), runSingleOut [("orderNumber", .vstr "77")]] ∧
      [runWithStart (some 1), runSingleOut [("orderNumber", .vstr "77")]].getLast? =
        some (runSingleOut [("orderNumber", .vstr "77")]) ∧
      (summarize [("n1", [runWithStart (some 1), runSingleOut [("orderNumber", .vstr "77")]])]
          ⟨"n1", none⟩).output =
        outputVal (specOutputItems (runSingleOut [("orderNumber", .vstr "77")]))) ∧
    outputVal (specOutputItems (runSingleOut [("orderNumber", .vstr "77")])) =
      .vobj [("orderNumber", .vstr "77")] :=
  ⟨⟨rfl, rfl,
      timeline_output_spec.2.1
        [("n1", [runWithStart (some 1), runSingleOut [("orderNumber", .vstr "77")]])]
        ⟨"n1", none⟩ [runWithStart (some 1), runSingleOut [("orderNumber", .vstr "77")]]
        (runSingleOut [("orderNumber", .vstr "77")]) rfl rfl⟩,
    rfl⟩

theorem mapAttachments_objs (objs : List JsObj) :
    mapAttachments (objs.map JsVal.vobj) =
      .ok (objs.map fun ob =>
        JsVal.vobj [("url", jsGet ob "url"),
          ("filename", if truthy (jsGet ob "filename") then jsGet ob "filename"
           else .vstr "Download")]) := by
  induction objs with
  | nil => rfl
  | cons ob rest ih => simp [mapAttachments, jsPropEx, ih]

theorem jsPropEx_ok_of_not_nullish {v : JsVal} (h : isNullish v = false) (k : String) :
    ∃ w, jsPropEx v k = .ok w := by
  cases v with
  | vnull => simp [isNullish] at h
  | vundefined => simp [isNullish] at h
  | vobj o => exact ⟨jsGet o k, rfl⟩
  | vbool b => exact ⟨.vundefined, rfl⟩
  | vnum n => exact ⟨.vundefined, rfl⟩
  | vstr s => exact ⟨.vundefined, rfl⟩
  | varr xs => exact ⟨.vundefined, rfl⟩

theorem mapAttachments_nullish {l : List JsVal} {e : JsVal}
    (he : e ∈ l) (hn : isNullish e = true) :
    mapAttachments l = .error "TypeError" := by
  induction l with
  | nil => cases he
  | cons a rest ih =>
    by_cases ha : isNullish a = true
    · cases a with
      | vnull => rfl
      | vundefined => rfl
      | vbool b => simp [isNullish] at ha
      | vnum n => simp [isNullish] at ha
      | vstr s => simp [isNullish] at ha
      | vobj o => simp [isNullish] at ha
      | varr xs => simp [isNullish] at ha
    · have ha' : isNullish a = false := by
        rw [Bool.not_eq_true] at ha
        exact ha
      have he' : e ∈ rest := by
        rcases List.mem_cons.mp he with rfl | h2
        · exact absurd hn ha
        · exact h2
      obtain ⟨w1, hw1⟩ := jsPropEx_ok_of_not_nullish ha' "url"
      obtain ⟨w2, hw2⟩ := jsPropEx_ok_of_not_nullish ha' "filename"
      simp [mapAttachments, hw1, hw2, ih he']

/-- Claim C8 counterexample: two inputs refute the claim as stated.  First,
an attachment whose `filename` is present but empty is mapped to
`filename: "Download"` — the claim defaults only when the filename is
absent, so it predicts the empty string survives.  Second, the mixed list
`[{url:"u1"}, {id:"2"}]` is not a list of objects carrying a url, hence an
"every other value" under the claim and predicted unchanged, yet the code
(which tests only `value[0]?.url`) transforms it elementwise. -/
theorem resolveFieldValue_filename_counterexample :
    resolveFieldValue (.varr [.vobj [("url", .vstr "u1"), ("filename", .vstr "")]]) =
      .ok (.varr [.vobj [("url", .vstr "u1"), ("filename", .vstr "Download")]]) ∧
    (Except.ok (JsVal.varr [.vobj [("url", .vstr "u1"), ("filename", .vstr "Download")]]) :
        Except String JsVal) ≠
      .ok (.varr [.vobj [("url", .vstr "u1"), ("filename", .vstr "")]]) ∧
    resolveFieldValue (.varr [.vobj [("url", .vstr "u1")], .vobj [("id", .vstr "2")]]) =
      .ok (.varr [.vobj [("url", .vstr "u1"), ("filename", .vstr "Download")],
        .vobj [("url", .vundefined), ("filename", .vstr "Download")]]) ∧
    (Except.ok (JsVal.varr [.vobj [("url", .vstr "u1"), ("filename", .vstr "Download")],
        .vobj [("url", .vundefined), ("filename", .vstr "Download")]]) :
        Except String JsVal) ≠
      .ok (.varr [.vobj [("url", .vstr "u1")], .vobj [("id", .vstr "2")]]) :=
  ⟨rfl, by simp, rfl, by simp⟩

/-- Claim C8 amended: The resolver maps a non-array object whose `label` is
not loosely null to that label; a non-empty list of objects each carrying a
truthy `url` to the elementwise `{url, filename}` list where `filename`
falls back to "Download" whenever the element's own `filename` is falsy
(absent or empty, not only absent); null, undefined, plain strings,
numbers, booleans, objects without a label, empty lists, and lists whose
first element does not carry a truthy url pass through unchanged; and a
list whose first element carries a truthy url but which contains a nullish
element makes the resolver raise a TypeError (the unguarded `att.url`
access).  In particular `{id:"x", label:"Blue"}` resolves to `"Blue"` and
`[{url:"u1"}]` to `[{url:"u1", filename:"Download"}]`. -/
theorem resolveFieldValue_cases :
    (∀ fs : JsObj, isNullish (jsGet fs "label") = false →
      resolveFieldValue (.vobj fs) = .ok (jsGet fs "label")) ∧
    (∀ (ob : JsObj) (obs : List JsObj),
      (∀ o ∈ ob :: obs, truthy (jsGet o "url") = true) →
      resolveFieldValue (.varr ((ob :: obs).map JsVal.vobj)) =
        .ok (.varr ((ob :: obs).map fun o =>
          JsVal.vobj [("url", jsGet o "url"),
            ("filename", if truthy (jsGet o "filename") then jsGet o "filename"
             else .vstr "Download")]))) ∧
    (∀ (x : JsVal) (xs : List JsVal) (e : JsVal),
      truthy (jsPropSafe x "url") = true → e ∈ x :: xs → isNullish e = true →
      resolveFieldValue (.varr (x :: xs)) = .error "TypeError") ∧
    (∀ v : JsVal,
      (match v with
        | .vobj fs => isNullish (jsGet fs "label") = true
        | .varr [] => True
        | .varr (x :: _) => truthy (jsPropSafe x "url") = false
        | _ => True) →
      resolveFieldValue v = .ok v) ∧
    resolveFieldValue (.vobj [("id", .vstr "x"), ("label", .vstr "Blue")]) =
      .ok (.vstr "Blue") ∧
    resolveFieldValue (.varr [.vobj [("url", .vstr "u1")]]) =
      .ok (.varr [.vobj [("url", .vstr "u1"), ("filename", .vstr "Download")]]) ∧
    (∀ s : String, resolveFieldValue (.vstr s) = .ok (.vstr s)) := by
  refine ⟨?_, ?_, ?_, ?_, rfl, rfl, fun s => rfl⟩
  · intro fs h
    show (if isNullish (jsGet fs "label") then Except.ok (JsVal.vobj fs)
      else .ok (jsGet fs "label")) = .ok (jsGet fs "label")
    rw [h]
    simp
  · intro ob obs h
    have htrig : truthy (jsPropSafe (JsVal.vobj ob) "url") = true :=
      h ob (List.mem_cons_self ob obs)
    show (if truthy (jsPropSafe (JsVal.vobj ob) "url") then
        (mapAttachments (JsVal.vobj ob :: obs.map JsVal.vobj)).map JsVal.varr
      else .ok (JsVal.varr (JsVal.vobj ob :: obs.map JsVal.vobj))) = _
    rw [htrig]
    have hm := mapAttachments_objs (ob :: obs)
    simp only [List.map_cons] at hm
    simp [hm, Except.map]
  · intro x xs e htrig he hn
    show (if truthy (jsPropSafe x "url") then
        (mapAttachments (x :: xs)).map JsVal.varr
      else .ok (JsVal.varr (x :: xs))) = .error "TypeError"
    rw [htrig]
    simp [mapAttachments_nullish he hn, Except.map]
  · intro v h
    cases v with
    | vundefined => rfl
    | vnull => rfl
    | vbool b => rfl
    | vnum n => rfl
    | vstr s => rfl
    | vobj fs =>
      show (if isNullish (jsGet fs "label") then Except.ok (JsVal.vobj fs)
        else .ok (jsGet fs "label")) = .ok (JsVal.vobj fs)
      rw [show isNullish (jsGet fs "label") = true from h]
      simp
    | varr elems =>
      cases elems with
      | nil => rfl
      | cons x xs =>
        show (if truthy (jsPropSafe x "url") then
            (mapAttachments (x :: xs)).map JsVal.varr
          else .ok (JsVal.varr (x :: xs))) = .ok (JsVal.varr (x :: xs))
        rw [show truthy (jsPropSafe x "url") = false from h]
        simp

theorem resolveFieldValue_cases_witness :
    (isNullish (jsGet [("id", .vstr "x"), ("label", .vstr "Blue")] "label") = false ∧
      resolveFieldValue (.vobj [("id", .vstr "x"), ("label", .vstr "Blue")]) =
        .ok (jsGet [("id", .vstr "x"), ("label", .vstr "Blue")] "label")) ∧
    ((∀ o ∈ [([("url", JsVal.vstr "u1")] : JsObj)], truthy (jsGet o "url") = true) ∧
      resolveFieldValue (.varr ([([("url", JsVal.vstr "u1")] : JsObj)].map JsVal.vobj)) =
        .ok (.varr ([([("url", JsVal.vstr "u1")] : JsObj)].map fun o =>
          JsVal.vobj [("url", jsGet o "url"),
            ("filename", if truthy (jsGet o "filename") then jsGet o "filename"
             else .vstr "Download")]))) ∧
    (truthy (jsPropSafe (JsVal.vobj [("url", .vstr "u1")]) "url") = true ∧
      JsVal.vnull ∈ [JsVal.vobj [("url", .vstr "u1")], JsVal.vnull] ∧
      isNullish JsVal.vnull = true ∧
      resolveFieldValue (.varr [.vobj [("url", .vstr "u1")], .vnull]) = .error "TypeError") ∧
    resolveFieldValue (.vnum 42) = .ok (.vnum 42) :=
  ⟨⟨rfl, resolveFieldValue_cases.1 [("id", .vstr "x"), ("label", .vstr "Blue")] rfl⟩,
    ⟨by decide, resolveFieldValue_cases.2.1 [("url", JsVal.vstr "u1")] [] (by decide)⟩,
    ⟨rfl, by simp, rfl,
      resolveFieldValue_cases.2.2.1 (.vobj [("url", .vstr "u1")]) [.vnull] .vnull
        rfl (by simp) rfl⟩,
    resolveFieldValue_cases.2.2.2.1 (.vnum 42) trivial⟩

theorem runOps_create_ok {tables : List FetchedTable} :
    ∀ {ts : List SoftrTableRow} {fs : List SoftrFieldRow} {db' : SoftrDB},
    runOps ⟨ts, fs⟩ (tables.map DbOp.createTable) = .ok db' →
    db' = ⟨ts ++ tables.map toTableRow, fs ++ tables.flatMap fieldRowsOf⟩ := by
  induction tables with
  | nil =>
    intro ts fs db' h
    simp only [List.map_nil, runOps] at h
    cases h
    simp
  | cons t rest ih =>
    intro ts fs db' h
    simp only [List.map_cons, runOps, applyOp] at h
    by_cases hc : (∃ r ∈ (⟨ts, fs⟩ : SoftrDB).tables, r.id = t.id) ∨
        (∃ f ∈ fieldRowsOf t, ∃ g ∈ (⟨ts, fs⟩ : SoftrDB).fields, g.id = f.id) ∨
        ¬ ((fieldRowsOf t).map SoftrFieldRow.id).Nodup
    · rw [if_pos hc] at h
      simp at h
    · rw [if_neg hc] at h
      have := ih h
      subst this
      simp

theorem promiseAll_error {α : Type} {l : List (Except String α)} {e : String}
    {x : Except String α} (hx : x ∈ l) (he : x = .error e) :
    ∃ e2, promiseAll l = .error e2 := by
  induction l with
  | nil => cases hx
  | cons a rest ih =>
    cases a with
    | error e3 => exact ⟨e3, rfl⟩
    | ok v =>
      rcases List.mem_cons.mp hx with rfl | hx2
      · cases he
      · obtain ⟨e2, h2⟩ := ih hx2
        exact ⟨e2, by simp [promiseAll, h2, Except.map]⟩

/-- Claim C2: The table sync replaces the schema cache all-or-nothing: whenever
the run fails (a fetch before the transaction, or the transaction itself),
the store is exactly what it was before; whenever it succeeds, the store
holds exactly the fetched tables and their nested fields (everything
previously cached is gone), and the returned count is the number of synced
tables. -/
theorem syncSoftrData_all_or_nothing :
    (∀ (listRes : Except String (List String))
        (detail : String → Except String (Option FetchedTable)) (db : SoftrDB) (e : String),
      (syncSoftrData listRes detail db).2 = .error e →
      (syncSoftrData listRes detail db).1 = db) ∧
    (∀ (listRes : Except String (List String))
        (detail : String → Except String (Option FetchedTable)) (db : SoftrDB) (n : Nat),
      (syncSoftrData listRes detail db).2 = .ok n →
      ∃ tables : List FetchedTable,
        (syncSoftrData listRes detail db).1 =
          ⟨tables.map toTableRow, tables.flatMap fieldRowsOf⟩ ∧
        n = tables.length) := by
  constructor
  · intro listRes detail db e h
    unfold syncSoftrData at h ⊢
    cases listRes with
    | error e1 => rfl
    | ok ids =>
      cases hpa : promiseAll (ids.map detail) with
      | error e2 => simp [hpa]
      | ok detailed =>
        simp only [hpa] at h ⊢
        cases hro : runOps db (syncOps (detailed.filterMap id)) with
        | ok db' => simp [hro] at h
        | error e3 => simp [hro]
  · intro listRes detail db n h
    unfold syncSoftrData at h ⊢
    cases listRes with
    | error e1 => cases h
    | ok ids =>
      cases hpa : promiseAll (ids.map detail) with
      | error e2 => simp [hpa] at h
      | ok detailed =>
        simp only [hpa] at h ⊢
        cases hro : runOps db (syncOps (detailed.filterMap id)) with
        | error e3 => simp [hro] at h
        | ok db' =>
          simp only [hro] at h
          refine ⟨detailed.filterMap id, ?_, by simpa using h.symm⟩
          simp only [hro]
          simp only [syncOps, runOps, applyOp] at hro
          have := runOps_create_ok hro
          simpa using this

theorem syncSoftrData_all_or_nothing_witness :
    ((syncSoftrData (.ok ["t1", "t2", "t3"]) detailBoom dbOld).2 = .error "boom" ∧
      (syncSoftrData (.ok ["t1", "t2", "t3"]) detailBoom dbOld).1 = dbOld) ∧
    ((syncSoftrData (.ok ["t1", "t3"]) detailOk dbOld).2 = .ok 1 ∧
      ∃ tables : List FetchedTable,
        (syncSoftrData (.ok ["t1", "t3"]) detailOk dbOld).1 =
          ⟨tables.map toTableRow, tables.flatMap fieldRowsOf⟩ ∧
        1 = tables.length) :=
  ⟨⟨rfl, syncSoftrData_all_or_nothing.1 (.ok ["t1", "t2", "t3"]) detailBoom dbOld "boom" rfl⟩,
    ⟨rfl, syncSoftrData_all_or_nothing.2 (.ok ["t1", "t3"]) detailOk dbOld 1 rfl⟩⟩

/-- Claim C4 counterexample: With tables [t1, t2, t3] listed and the detail
fetch for t2 raising, the claim expects t2 to be filtered out and the two
remaining tables synced (count 2); the code instead rejects the whole sync
through `Promise.all` and leaves the store untouched. -/
theorem tableSync_fetch_failure_counterexample :
    (syncSoftrData (.ok ["t1", "t2", "t3"]) detailBoom dbOld).2 = .error "boom" ∧
    (Except.error "boom" : Except String Nat) ≠ .ok 2 ∧
    (syncSoftrData (.ok ["t1", "t2", "t3"]) detailBoom dbOld).1 = dbOld :=
  ⟨rfl, by simp, rfl⟩

/-- Claim C4 amended: The table sync fetches detail for every listed table;
tables whose detail fetch returned nothing (`null` data) are filtered out
and the remaining tables are still synced, with the returned count the
number of tables kept; but a detail fetch that *throws* rejects the whole
sync (no table is synced and the store is untouched) rather than being
filtered out. -/
theorem tableSync_filter_and_count :
    (∀ (ids : List String) (detail : String → Except String (Option FetchedTable))
        (db : SoftrDB) (n : Nat),
      (syncSoftrData (.ok ids) detail db).2 = .ok n →
      ∃ detailed : List (Option FetchedTable),
        promiseAll (ids.map detail) = .ok detailed ∧
        n = (detailed.filterMap id).length) ∧
    (∀ (ids : List String) (detail : String → Except String (Option FetchedTable))
        (db : SoftrDB) (e i : String),
      i ∈ ids → detail i = .error e →
      ∃ e2, (syncSoftrData (.ok ids) detail db).2 = .error e2 ∧
        (syncSoftrData (.ok ids) detail db).1 = db) := by
  constructor
  · intro ids detail db n h
    unfold syncSoftrData at h
    cases hpa : promiseAll (ids.map detail) with
    | error e2 => simp [hpa] at h
    | ok detailed =>
      simp only [hpa] at h
      cases hro : runOps db (syncOps (detailed.filterMap id)) with
      | error e3 => simp [hro] at h
      | ok db' =>
        simp only [hro] at h
        exact ⟨detailed, rfl, by simpa using h.symm⟩
  · intro ids detail db e i hi hd
    have hmem : detail i ∈ ids.map detail := List.mem_map_of_mem detail hi
    obtain ⟨e2, hpa⟩ := promiseAll_error hmem hd
    refine ⟨e2, ?_, ?_⟩ <;> simp [syncSoftrData, hpa]

theorem tableSync_filter_and_count_witness :
    ((syncSoftrData (.ok ["t1", "t3"]) detailOk dbOld).2 = .ok 1 ∧
      ∃ detailed : List (Option FetchedTable),
        promiseAll (["t1", "t3"].map detailOk) = .ok detailed ∧
        1 = (detailed.filterMap id).length) ∧
    (("t2" : String) ∈ ["t1", "t2", "t3"] ∧ detailBoom "t2" = .error "boom" ∧
      ∃ e2, (syncSoftrData (.ok ["t1", "t2", "t3"]) detailBoom dbOld).2 = .error e2 ∧
        (syncSoftrData (.ok ["t1", "t2", "t3"]) detailBoom dbOld).1 = dbOld) :=
  ⟨⟨rfl, tableSync_filter_and_count.1 ["t1", "t3"] detailOk dbOld 1 rfl⟩,
    ⟨by simp, rfl,
      tableSync_filter_and_count.2 ["t1", "t2", "t3"] detailBoom dbOld "boom" "t2"
        (by simp) rfl⟩⟩

theorem jsTrim_pad (pre suf : List Char) (core : String)
    (hpre : pre.all isJsSpace = true) (hsuf : suf.all isJsSpace = true) :
    jsTrim (String.mk (pre ++ core.data ++ suf)) = jsTrim core := by
  unfold jsTrim
  congr 1
  have hpre' : ∀ a ∈ pre, isJsSpace a := by simpa [List.all_eq_true] using hpre
  have hsuf' : ∀ a ∈ suf, isJsSpace a := by simpa [List.all_eq_true] using hsuf
  rw [List.append_assoc, List.dropWhile_append_of_pos hpre']
  cases h2 : core.data.dropWhile isJsSpace with
  | nil =>
    have hcore : ∀ x ∈ core.data, isJsSpace x := List.dropWhile_eq_nil_iff.mp h2
    rw [List.dropWhile_append_of_pos hcore, List.dropWhile_eq_nil_iff.mpr hsuf']
  | cons c cs =>
    rw [List.dropWhile_append, h2]
    simp only [List.isEmpty_cons, Bool.false_eq_true, if_false]
    rw [List.reverse_append, List.dropWhile_append_of_pos (by simpa using hsuf')]

/-- Claim C10: The per-table filter conditions are built from the trimmed
query — `IS` against `query.trim()`, coerced through `Number` for
NUMBER/FORMULA fields — so padding a query with leading/trailing whitespace
does not change `trim`'s result, and any two queries with equal trimmed
forms produce identical per-table conditions and an identical overall
search plan. -/
theorem searchConditions_trim_invariant :
    (∀ (query : String) (table : CachedTable),
      tableConditions query table =
        (table.fields.filter (fun f =>
          ((TABLE_SEARCH_FIELDS table.name).getD []).contains f.name)).map fun f =>
          { leftSide := f.id, operator := "IS",
            rightSide := if NUMBER_TYPES f.type then RightSide.num (jsNumber (jsTrim query))
                         else RightSide.str (jsTrim query) }) ∧
    (∀ (pre suf : List Char) (core : String),
      pre.all isJsSpace = true → suf.all isJsSpace = true →
      jsTrim (String.mk (pre ++ core.data ++ suf)) = jsTrim core) ∧
    (∀ q1 q2 : String, jsTrim q1 = jsTrim q2 →
      (∀ table : CachedTable, tableConditions q1 table = tableConditions q2 table) ∧
      ∀ tables : List CachedTable, searchPlan q1 tables = searchPlan q2 tables) := by
  refine ⟨fun query table => rfl, jsTrim_pad, ?_⟩
  intro q1 q2 h
  have ht : ∀ table : CachedTable, tableConditions q1 table = tableConditions q2 table := by
    intro table
    simp only [tableConditions, h]
  exact ⟨ht, fun tables => by simp only [searchPlan, h, ht]⟩

theorem searchConditions_trim_invariant_witness :
    (([' '] : List Char).all isJsSpace = true ∧ (['\t'] : List Char).all isJsSpace = true ∧
      jsTrim (String.mk ([' '] ++ "42".data ++ ['\t'])) = jsTrim "42") ∧
    (jsTrim " 42" = jsTrim "42 " ∧
      tableConditions " 42" tblOrders = tableConditions "42 " tblOrders ∧
      searchPlan " 42" [tblOrders] = searchPlan "42 " [tblOrders]) ∧
    tableConditions " 42" tblOrders = [⟨"fld1", "IS", .num (some 42)⟩] :=
  ⟨⟨by decide, by decide,
      searchConditions_trim_invariant.2.1 [' '] ['\t'] "42" (by decide) (by decide)⟩,
    ⟨by decide, (searchConditions_trim_invariant.2.2 " 42" "42 " (by decide)).1 tblOrders,
      (searchConditions_trim_invariant.2.2 " 42" "42 " (by decide)).2 [tblOrders]⟩,
    rfl⟩

end WorkflowAdmin
